import Mathlib

/-!
Shallow embedding of the storage-facade-indexeddb core (src/index.ts):
an ordered key-value store over IndexedDB.  Records are kept in an
IndexedDB object store with auto-increment primary keys; each record is
an Entry with a dense insertion ordinal (the field named index), a
unique string key and an opaque structured-cloneable value.  Two unique
secondary indexes exist: one on the ordinal and one on the key.  The
class carries an isDeleted lifecycle flag checked by checkStorage at the
start of every operation.

The embedding models the object store as an association list from
primary key to Entry kept in ascending primary-key order, exactly the
order in which IndexedDB stores records and in which an object-store
cursor visits them.  Each operation takes a Bool telling whether the
engine calls of this operation succeed; a failing engine call surfaces
as an error, after the lifecycle check (which the source performs
before any engine interaction).  Values are modelled as immutable trees,
which is what the engine's structured clone produces on every add, put
and get.
-/

namespace IndexedDBStore

/-- Structured-cloneable values as persisted by the engine: the engine
structured-clones every value on add, put and get, so stored values are
immutable trees.  vUndef is the unset sentinel (JS undefined), distinct
from vNull (JS null). -/
inductive Tree where
  | vNull
  | vUndef
  | vInt (n : Int)
  | vStr (s : String)
  | vObj (fields : List (String × Tree))

/-- The persisted record shape from src/index.ts: interface Entry with
fields index (the insertion ordinal), key and value. -/
structure Entry where
  index : Int
  key   : String
  value : Tree

/-- State of one IndexedDB-backed store: the records of the object store
as an association list from auto-increment primary key to Entry, in
ascending primary-key order; the auto-increment key generator (IndexedDB
generators start at 1 and are not reset by delete or clear); and the
isDeleted lifecycle flag of IndexedDBInterface. -/
structure Store where
  recs : List (Nat × Entry)
  nextPk : Nat
  isDeleted : Bool

/-- The fixed message thrown by checkStorage in src/index.ts line 31. -/
def deletedMsg : String := "This Storage was deleted!"

/-- Stand-in for an error produced by a failing engine call. -/
def engineErr : String := "EngineError"

/-- checkStorage from src/index.ts lines 30-32: throws when the
lifecycle flag is set. -/
def checkStorage (s : Store) : Except String Unit :=
  if s.isDeleted then Except.error deletedMsg else Except.ok ()

/-- Lookup through the unique keys index: the record whose key field
equals the argument, with its primary key. -/
def keysFind (recs : List (Nat × Entry)) (k : String) : Option (Nat × Entry) :=
  recs.find? (fun r => r.2.key == k)

/-- keys.getKey(key): the primary key of the record with the given key
field, as returned by the unique keys index. -/
def indexKeysGetKey (recs : List (Nat × Entry)) (k : String) : Option Nat :=
  (keysFind recs k).map (fun r => r.1)

/-- objectStore.get(pk): the record stored under a primary key. -/
def storeGet (recs : List (Nat × Entry)) (pk : Nat) : Option Entry :=
  (recs.find? (fun r => r.1 == pk)).map (fun r => r.2)

/-- The ordinals of the records, in primary-key order. -/
def idxs (recs : List (Nat × Entry)) : List Int :=
  recs.map (fun r => r.2.index)

/-- The ordinal delivered by opening a cursor on the indexes index in
prev direction (src/index.ts lines 156-171): the greatest ordinal
present, or -1 when the store has no records. -/
def maxOrdinal (recs : List (Nat × Entry)) : Int :=
  (idxs recs).maximum.unbot' (-1)

/-- getItemAsync from src/index.ts lines 76-123: after the lifecycle
check, look the key up through the keys index; resolve undefined (the
unset sentinel, vUndef here) when absent, otherwise fetch the record by
its primary key and resolve its value field. -/
def getItemAsync (eng : Bool) (s : Store) (k : String) : Except String Tree :=
  match checkStorage s with
  | Except.error e => Except.error e
  | Except.ok _ =>
    if eng then
      match indexKeysGetKey s.recs k with
      | none => Except.ok Tree.vUndef
      | some pk =>
        match storeGet s.recs pk with
        | none => Except.error "TypeError"
        | some e => Except.ok e.value
    else Except.error engineErr

/-- setItemAsync from src/index.ts lines 125-214: after the lifecycle
check, look the key up through the keys index.  When absent, scan the
indexes index in prev direction for the greatest ordinal (-1 when none)
and add a fresh record with the next ordinal under a fresh auto-increment
primary key.  When present, fetch the record by primary key, overwrite
only its value field and put it back under the same primary key. -/
def setItemAsync (eng : Bool) (s : Store) (k : String) (v : Tree) :
    Except String Store :=
  match checkStorage s with
  | Except.error e => Except.error e
  | Except.ok _ =>
    if eng then
      match indexKeysGetKey s.recs k with
      | none =>
        let newEntry : Entry := { index := maxOrdinal s.recs + 1, key := k, value := v }
        Except.ok { s with recs := s.recs ++ [(s.nextPk, newEntry)],
                           nextPk := s.nextPk + 1 }
      | some pk =>
        match storeGet s.recs pk with
        | none => Except.error "TypeError"
        | some e =>
          let e2 : Entry := { e with value := v }
          Except.ok { s with
            recs := s.recs.map (fun r => if r.1 == pk then (pk, e2) else r) }
    else Except.error engineErr

/-- removeItemAsync from src/index.ts lines 216-287: after the lifecycle
check, look the key up through the keys index.  When absent, resolve Ok
without touching anything.  When present, delete the record by primary
key, then walk an object-store cursor over the primary-key range
lowerBound(deletedPk) - ascending primary-key order - and put every
visited record back with its ordinal decremented by one. -/
def removeItemAsync (eng : Bool) (s : Store) (k : String) : Except String Store :=
  match checkStorage s with
  | Except.error e => Except.error e
  | Except.ok _ =>
    if eng then
      match indexKeysGetKey s.recs k with
      | none => Except.ok s
      | some keyToDel =>
        let afterDelete := s.recs.filter (fun r => r.1 != keyToDel)
        let compacted := afterDelete.map (fun r =>
          if keyToDel ≤ r.1 then (r.1, { r.2 with index := r.2.index - 1 }) else r)
        Except.ok { s with recs := compacted }
    else Except.error engineErr

/-- clearAsync from src/index.ts lines 289-320: objectStore.clear()
removes every record; the key generator is not reset. -/
def clearAsync (eng : Bool) (s : Store) : Except String Store :=
  match checkStorage s with
  | Except.error e => Except.error e
  | Except.ok _ =>
    if eng then Except.ok { s with recs := [] }
    else Except.error engineErr

/-- sizeAsync from src/index.ts lines 322-353: objectStore.count(). -/
def sizeAsync (eng : Bool) (s : Store) : Except String Nat :=
  match checkStorage s with
  | Except.error e => Except.error e
  | Except.ok _ =>
    if eng then Except.ok s.recs.length
    else Except.error engineErr

/-- keyAsync from src/index.ts lines 355-405: look the ordinal up
through the indexes index; resolve undefined when no record carries it,
otherwise fetch the record by primary key and resolve its key field. -/
def keyAsync (eng : Bool) (s : Store) (i : Int) : Except String (Option String) :=
  match checkStorage s with
  | Except.error e => Except.error e
  | Except.ok _ =>
    if eng then
      match (s.recs.find? (fun r => r.2.index == i)).map (fun r => r.1) with
      | none => Except.ok none
      | some pk =>
        match storeGet s.recs pk with
        | none => Except.error "TypeError"
        | some e => Except.ok (some e.key)
    else Except.error engineErr

/-- deleteStorageAsync from src/index.ts lines 407-423: after the
lifecycle check, ask the engine to delete the whole database; only the
success handler sets the isDeleted flag.  The returned pair is the
operation result together with the state of the interface object
afterwards. -/
def deleteStorageAsync (eng : Bool) (s : Store) : Except String Unit × Store :=
  match checkStorage s with
  | Except.error e => (Except.error e, s)
  | Except.ok _ =>
    if eng then (Except.ok (), { s with isDeleted := true })
    else (Except.error engineErr, s)

/-- Modelled from the spec: the repository itself only ships the engine
adapter; iteration (entries) lives in the external storage-facade caller,
which builds the ascending-ordinal sequence of pairs from size, keyAt and
get, each of which performs its own lifecycle check first. -/
def entriesAsync (eng : Bool) (s : Store) : Except String (List (String × Tree)) :=
  match sizeAsync eng s with
  | Except.error e => Except.error e
  | Except.ok n =>
    (List.range n).mapM (fun i =>
      match keyAsync eng s (Int.ofNat i) with
      | Except.error e => Except.error e
      | Except.ok none => Except.error "TypeError"
      | Except.ok (some k) =>
        match getItemAsync eng s k with
        | Except.error e => Except.error e
        | Except.ok v => Except.ok (k, v))

/-- The in-memory default overlay of the storage-facade caller: a plain
key-to-value mapping, never persisted. -/
abbrev Overlay := List (String × Tree)

/-- Modelled from the spec: the Default Overlay consultation rule of the
external storage-facade caller layer - when a read produces the unset
sentinel (JS undefined), the overlay value for the key is substituted if
present; any other stored value, including null, is returned as is. -/
def getWithDefault (d : Overlay) (eng : Bool) (s : Store) (k : String) :
    Except String Tree :=
  match getItemAsync eng s k with
  | Except.error e => Except.error e
  | Except.ok Tree.vUndef => Except.ok ((d.lookup k).getD Tree.vUndef)
  | Except.ok v => Except.ok v

/-- A serialized operation against a live store. -/
inductive Op where
  | set (k : String) (v : Tree)
  | rem (k : String)

/-- One serialized awaited operation with a working engine; the source
test suite drives the store exactly this way. -/
def step (s : Store) : Op → Store
  | Op.set k v =>
    match setItemAsync true s k v with
    | Except.ok s' => s'
    | Except.error _ => s
  | Op.rem k =>
    match removeItemAsync true s k with
    | Except.ok s' => s'
    | Except.error _ => s

/-- A freshly initialized store: no records, generator at 1, live. -/
def emptyStore : Store := { recs := [], nextPk := 1, isDeleted := false }

/-- Run a sequence of serialized set and remove operations from an empty
live store. -/
def applyOps (ops : List Op) : Store := ops.foldl step emptyStore

/-- The primary keys of the records, in storage order. -/
def pksOf (recs : List (Nat × Entry)) : List Nat := recs.map (fun r => r.1)

/-- The key fields of the records, in storage order. -/
def keysOf (recs : List (Nat × Entry)) : List String := recs.map (fun r => r.2.key)

/-- Reachable-state invariant of a live store: primary keys strictly
increase along the storage order, all of them are below the key
generator, the ordinals read off in primary-key order are exactly
0, 1, ..., size-1, record keys are pairwise distinct, and the store is
live. -/
def Inv (s : Store) : Prop :=
  (pksOf s.recs).Pairwise (· < ·) ∧
  (∀ x ∈ pksOf s.recs, x < s.nextPk) ∧
  idxs s.recs = (List.range s.recs.length).map (Nat.cast : Nat → Int) ∧
  (keysOf s.recs).Pairwise (fun a b => a ≠ b) ∧
  s.isDeleted = false

/-- A caller-side JS value: a primitive, or a reference to a mutable
object living in the caller's heap.  This is what the caller hands to
set and may keep mutating afterwards. -/
inductive JSVal where
  | jNull
  | jUndef
  | jInt (n : Int)
  | jStr (s : String)
  | jRef (r : Nat)

/-- The caller's mutable heap: object identity to named fields. -/
abbrev Heap := List (Nat × List (String × JSVal))

/-- Structured clone of a primitive; a bare reference cannot be resolved
without the heap. -/
def snapBase : JSVal → Option Tree
  | JSVal.jNull => some Tree.vNull
  | JSVal.jUndef => some Tree.vUndef
  | JSVal.jInt n => some (Tree.vInt n)
  | JSVal.jStr s => some (Tree.vStr s)
  | JSVal.jRef _ => none

/-- Clone every field of an object with a given value-cloning function. -/
def snapshotList (snap : JSVal → Option Tree) :
    List (String × JSVal) → Option (List (String × Tree))
  | [] => some []
  | (nm, v) :: rest =>
    match snap v, snapshotList snap rest with
    | some t, some ts => some ((nm, t) :: ts)
    | _, _ => none

/-- One dereferencing step of the structured clone. -/
def snapshotStep (h : Heap) (snap : JSVal → Option Tree) : JSVal → Option Tree
  | JSVal.jRef r =>
    match h.lookup r with
    | none => none
    | some fs => (snapshotList snap fs).map Tree.vObj
  | v => snapBase v

/-- Structured clone with a reference-depth budget. -/
def snapshotN (h : Heap) : Nat → JSVal → Option Tree
  | 0 => snapBase
  | fuel + 1 => snapshotStep h (snapshotN h fuel)

/-- The engine's structured clone of a caller value read against the
current state of the caller's heap: the deep, independent copy that
IndexedDB takes of every value passed to add or put. -/
def snapshotV (fuel : Nat) (h : Heap) (v : JSVal) : Option Tree :=
  snapshotN h fuel v

/-- set as invoked by a caller owning a mutable heap: the engine
structured-clones the argument at call time (failing with a clone error
on values it cannot serialize), and the clone is what setItemAsync
persists. -/
def setItemJS (eng : Bool) (s : Store) (k : String) (fuel : Nat) (h : Heap)
    (v : JSVal) : Except String Store :=
  match snapshotV fuel h v with
  | none => Except.error "DataCloneError"
  | some t => setItemAsync eng s k t

theorem keysFind_eq_none {recs : List (Nat × Entry)} {k : String} :
    keysFind recs k = none ↔ ∀ r ∈ recs, r.2.key ≠ k := by
  simp [keysFind, List.find?_eq_none]

theorem keysFind_some_split {recs : List (Nat × Entry)} {k : String}
    {pk : Nat} {e : Entry} (h : keysFind recs k = some (pk, e)) :
    e.key = k ∧ ∃ l₁ l₂, recs = l₁ ++ (pk, e) :: l₂ ∧ ∀ r ∈ l₁, r.2.key ≠ k := by
  have h' := List.find?_eq_some.mp h
  refine ⟨by simpa using h'.1, ?_⟩
  obtain ⟨l₁, l₂, hrec, hl₁⟩ := h'.2
  exact ⟨l₁, l₂, hrec, fun r hr => by simpa using hl₁ r hr⟩

theorem sorted_bounds {l₁ l₂ : List (Nat × Entry)} {pk : Nat} {e : Entry}
    (hsort : (pksOf (l₁ ++ (pk, e) :: l₂)).Pairwise (· < ·)) :
    (∀ r ∈ l₁, r.1 < pk) ∧ ∀ r ∈ l₂, pk < r.1 := by
  rw [pksOf, List.map_append, List.map_cons, List.pairwise_append] at hsort
  obtain ⟨_, h₂, hx⟩ := hsort
  rw [List.pairwise_cons] at h₂
  constructor
  · intro r hr
    exact hx r.1 (List.mem_map_of_mem _ hr) pk (List.mem_cons_self _ _)
  · intro r hr
    exact h₂.1 r.1 (List.mem_map_of_mem _ hr)

theorem keysFind_append_cons {l₁ l₂ : List (Nat × Entry)} {pk : Nat}
    {e : Entry} {k : String} (h₁ : ∀ r ∈ l₁, r.2.key ≠ k) (he : e.key = k) :
    keysFind (l₁ ++ (pk, e) :: l₂) k = some (pk, e) := by
  rw [keysFind, List.find?_append]
  have hn : l₁.find? (fun r => r.2.key == k) = none :=
    List.find?_eq_none.mpr (fun x hx => by simpa using h₁ x hx)
  rw [hn]
  simp [List.find?_cons_of_pos, he]

theorem storeGet_append_cons {l₁ l₂ : List (Nat × Entry)} {pk : Nat}
    {e : Entry} (h₁ : ∀ r ∈ l₁, r.1 ≠ pk) :
    storeGet (l₁ ++ (pk, e) :: l₂) pk = some e := by
  rw [storeGet, List.find?_append]
  have hn : l₁.find? (fun r => r.1 == pk) = none :=
    List.find?_eq_none.mpr (fun x hx => by simpa using h₁ x hx)
  rw [hn]
  simp

theorem maximum_range_map (n : Nat) :
    ((List.range (n + 1)).map (Nat.cast : Nat → Int)).maximum = ((n : Int) : WithBot Int) := by
  induction n with
  | zero =>
    have h0 : (List.range 1).map (Nat.cast : Nat → Int) = [] ++ [(0 : Int)] := by rfl
    rw [h0, List.maximum_concat, List.maximum_nil]
    exact max_eq_right bot_le
  | succ m ih =>
    rw [List.range_succ, List.map_append]
    simp only [List.map_cons, List.map_nil]
    rw [List.maximum_concat, ih]
    exact max_eq_right (WithBot.coe_le_coe.mpr (by omega))

theorem maxOrdinal_of_dense {recs : List (Nat × Entry)}
    (h : idxs recs = (List.range recs.length).map (Nat.cast : Nat → Int)) :
    maxOrdinal recs = (recs.length : Int) - 1 := by
  match recs, h with
  | [], _ =>
    show (idxs ([] : List (Nat × Entry))).maximum.unbot' (-1) = _
    rw [show idxs ([] : List (Nat × Entry)) = [] from rfl, List.maximum_nil]
    rfl
  | a :: l, h =>
    rw [maxOrdinal, h]
    rw [show (a :: l).length = l.length + 1 from rfl, maximum_range_map,
      WithBot.unbot'_coe]
    push_cast
    omega

theorem dense_split {l₁ l₂ : List (Nat × Entry)} {pk : Nat} {e : Entry}
    (h : idxs (l₁ ++ (pk, e) :: l₂) =
      (List.range (l₁ ++ (pk, e) :: l₂).length).map (Nat.cast : Nat → Int)) :
    idxs l₁ = (List.range l₁.length).map (Nat.cast : Nat → Int) ∧
    e.index = (l₁.length : Int) ∧
    idxs l₂ = (List.range l₂.length).map (fun (t : Nat) => (l₁.length : Int) + 1 + t) := by
  have hlen : (l₁ ++ (pk, e) :: l₂).length = l₁.length + (l₂.length + 1) := by
    simp
  rw [idxs, List.map_append, List.map_cons, hlen, List.range_add, List.map_append,
    List.map_map] at h
  have hl : (List.map (fun r => r.2.index) l₁).length =
      ((List.range l₁.length).map (Nat.cast : Nat → Int)).length := by simp
  have h₁ := List.append_inj_left h hl
  have h₂ := List.append_inj_right h hl
  rw [List.range_succ_eq_map, List.map_cons, List.cons_eq_cons] at h₂
  obtain ⟨he, h₃⟩ := h₂
  have he' : e.index = (l₁.length : Int) := by
    simpa using he
  refine ⟨h₁, he', ?_⟩
  rw [idxs, h₃, List.map_map]
  refine (List.map_congr_left (fun t _ => ?_)).symm
  simp [Function.comp, Nat.succ_eq_add_one]
  omega

theorem setItem_append {s : Store} {k : String} {v : Tree}
    (hlive : s.isDeleted = false) (habs : keysFind s.recs k = none) :
    setItemAsync true s k v = Except.ok { s with
      recs := s.recs ++
        [(s.nextPk, { index := maxOrdinal s.recs + 1, key := k, value := v })],
      nextPk := s.nextPk + 1 } := by
  simp [setItemAsync, checkStorage, hlive, indexKeysGetKey, habs]

theorem map_untouched {pk : Nat} {e2 : Entry} {l : List (Nat × Entry)}
    (hl : ∀ r ∈ l, r.1 ≠ pk) :
    l.map (fun r => if r.1 == pk then (pk, e2) else r) = l := by
  rw [List.map_congr_left (g := id) ?_, List.map_id]
  intro r hr
  simp [hl r hr]

theorem setItem_update {s : Store} {k : String} {v : Tree} {pk : Nat} {e : Entry}
    (hsort : (pksOf s.recs).Pairwise (· < ·)) (hlive : s.isDeleted = false)
    (hfind : keysFind s.recs k = some (pk, e)) :
    ∃ l₁ l₂, s.recs = l₁ ++ (pk, e) :: l₂ ∧ e.key = k ∧
      (∀ r ∈ l₁, r.2.key ≠ k) ∧ (∀ r ∈ l₁, r.1 < pk) ∧ (∀ r ∈ l₂, pk < r.1) ∧
      setItemAsync true s k v =
        Except.ok { s with recs := l₁ ++ (pk, { e with value := v }) :: l₂ } := by
  obtain ⟨hek, l₁, l₂, hrec, hl₁⟩ := keysFind_some_split hfind
  have hb := sorted_bounds (hrec ▸ hsort)
  refine ⟨l₁, l₂, hrec, hek, hl₁, hb.1, hb.2, ?_⟩
  have hget : storeGet s.recs pk = some e := by
    rw [hrec]
    exact storeGet_append_cons (fun r hr => Nat.ne_of_lt (hb.1 r hr))
  have hmap : s.recs.map
      (fun r => if r.1 == pk then (pk, { e with value := v }) else r) =
      l₁ ++ (pk, { e with value := v }) :: l₂ := by
    rw [hrec, List.map_append, List.map_cons,
      map_untouched (fun r hr => Nat.ne_of_lt (hb.1 r hr)),
      map_untouched (fun r hr => (Nat.ne_of_lt (hb.2 r hr)).symm)]
    simp
  have hstep : setItemAsync true s k v =
      Except.ok { s with recs := s.recs.map (fun r =>
        if r.1 == pk then (pk, { e with value := v }) else r) } := by
    simp [setItemAsync, checkStorage, hlive, indexKeysGetKey, hfind, hget]
  rw [hstep, hmap]

theorem remove_absent {s : Store} {k : String} (hlive : s.isDeleted = false)
    (habs : keysFind s.recs k = none) :
    removeItemAsync true s k = Except.ok s := by
  simp [removeItemAsync, checkStorage, hlive, indexKeysGetKey, habs]

theorem remove_present {s : Store} {k : String} {pk : Nat} {e : Entry}
    (hsort : (pksOf s.recs).Pairwise (· < ·)) (hlive : s.isDeleted = false)
    (hfind : keysFind s.recs k = some (pk, e)) :
    ∃ l₁ l₂, s.recs = l₁ ++ (pk, e) :: l₂ ∧ e.key = k ∧
      (∀ r ∈ l₁, r.2.key ≠ k) ∧ (∀ r ∈ l₁, r.1 < pk) ∧ (∀ r ∈ l₂, pk < r.1) ∧
      removeItemAsync true s k = Except.ok { s with
        recs := l₁ ++ l₂.map (fun r => (r.1, { r.2 with index := r.2.index - 1 })) } := by
  obtain ⟨hek, l₁, l₂, hrec, hl₁⟩ := keysFind_some_split hfind
  have hb := sorted_bounds (hrec ▸ hsort)
  refine ⟨l₁, l₂, hrec, hek, hl₁, hb.1, hb.2, ?_⟩
  have hfil : s.recs.filter (fun r => r.1 != pk) = l₁ ++ l₂ := by
    rw [hrec, List.filter_append, List.filter_cons]
    have hmid : (((pk, e) : Nat × Entry).1 != pk) = false := by simp
    rw [hmid]
    simp only [Bool.false_eq_true, if_false]
    congr 1
    · exact List.filter_eq_self.mpr (fun r hr => by
        simp [Nat.ne_of_lt (hb.1 r hr)])
    · exact List.filter_eq_self.mpr (fun r hr => by
        simp [(Nat.ne_of_lt (hb.2 r hr)).symm])
  have hcomp : (l₁ ++ l₂).map (fun r =>
      if pk ≤ r.1 then (r.1, { r.2 with index := r.2.index - 1 }) else r) =
      l₁ ++ l₂.map (fun r => (r.1, { r.2 with index := r.2.index - 1 })) := by
    rw [List.map_append]
    congr 1
    · rw [List.map_congr_left (g := id) ?_, List.map_id]
      intro r hr
      simp [Nat.not_le.mpr (hb.1 r hr)]
    · exact List.map_congr_left (fun r hr => by
        simp [Nat.le_of_lt (hb.2 r hr)])
  have hstep : removeItemAsync true s k =
      Except.ok { s with recs := (s.recs.filter (fun r => r.1 != pk)).map (fun r =>
        if pk ≤ r.1 then (r.1, { r.2 with index := r.2.index - 1 }) else r) } := by
    simp [removeItemAsync, checkStorage, hlive, indexKeysGetKey, hfind]
  rw [hstep, hfil, hcomp]

theorem inv_set {s : Store} {k : String} {v : Tree} {s' : Store}
    (hInv : Inv s) (h : setItemAsync true s k v = Except.ok s') : Inv s' := by
  obtain ⟨hsort, hfresh, hdense, hkeys, hlive⟩ := hInv
  cases hkf : keysFind s.recs k with
  | none =>
    rw [setItem_append hlive hkf] at h
    injection h with h
    subst h
    have habs := keysFind_eq_none.mp hkf
    refine ⟨?_, ?_, ?_, ?_, hlive⟩
    · rw [pksOf, List.map_append, List.pairwise_append]
      refine ⟨hsort, by simp, ?_⟩
      intro a ha b hb
      simp only [List.map_cons, List.map_nil, List.mem_singleton] at hb
      subst hb
      exact hfresh a ha
    · intro x hx
      rw [pksOf, List.map_append, List.mem_append] at hx
      rcases hx with hx | hx
      · exact Nat.lt_succ_of_lt (hfresh x hx)
      · simp only [List.map_cons, List.map_nil, List.mem_singleton] at hx
        subst hx
        exact Nat.lt_succ_self _
    · show idxs (s.recs ++ _) = (List.range (s.recs ++ _).length).map (Nat.cast : Nat → Int)
      have hmax := maxOrdinal_of_dense hdense
      rw [idxs, List.map_append, List.length_append]
      rw [idxs] at hdense
      simp only [List.map_cons, List.map_nil, List.length_cons, List.length_nil]
      rw [List.range_succ, List.map_append, ← hdense]
      congr 1
      simp only [List.map_cons, List.map_nil]
      rw [hmax]
      congr 1
      omega
    · rw [keysOf, List.map_append, List.pairwise_append]
      refine ⟨hkeys, by simp, ?_⟩
      intro a ha b hb
      simp only [List.map_cons, List.map_nil, List.mem_singleton] at hb
      subst hb
      rw [List.mem_map] at ha
      obtain ⟨r, hr, hra⟩ := ha
      exact hra ▸ habs r hr
  | some pe =>
    obtain ⟨pk, e⟩ := pe
    obtain ⟨l₁, l₂, hrec, hek, hl₁, hb1, hb2, hstep⟩ :=
      setItem_update (v := v) hsort hlive hkf
    rw [hstep] at h
    injection h with h
    subst h
    have hpks : pksOf (l₁ ++ (pk, { e with value := v }) :: l₂) =
        pksOf (l₁ ++ (pk, e) :: l₂) := by
      simp [pksOf]
    have hidx : idxs (l₁ ++ (pk, { e with value := v }) :: l₂) =
        idxs (l₁ ++ (pk, e) :: l₂) := by
      simp [idxs]
    have hks : keysOf (l₁ ++ (pk, { e with value := v }) :: l₂) =
        keysOf (l₁ ++ (pk, e) :: l₂) := by
      simp [keysOf]
    have hlen : (l₁ ++ (pk, { e with value := v }) :: l₂).length =
        (l₁ ++ (pk, e) :: l₂).length := by
      simp
    refine ⟨?_, ?_, ?_, ?_, hlive⟩
    · show (pksOf (l₁ ++ (pk, { e with value := v }) :: l₂)).Pairwise (· < ·)
      rw [hpks, ← hrec]
      exact hsort
    · intro x hx
      show x < s.nextPk
      rw [show ({ s with recs := l₁ ++ (pk, { e with value := v }) :: l₂ } : Store).recs
          = l₁ ++ (pk, { e with value := v }) :: l₂ from rfl, hpks, ← hrec] at hx
      exact hfresh x hx
    · show idxs (l₁ ++ (pk, { e with value := v }) :: l₂) = _
      rw [hidx, hlen, ← hrec]
      exact hdense
    · show (keysOf (l₁ ++ (pk, { e with value := v }) :: l₂)).Pairwise _
      rw [hks, ← hrec]
      exact hkeys

theorem inv_remove {s : Store} {k : String} {s' : Store}
    (hInv : Inv s) (h : removeItemAsync true s k = Except.ok s') : Inv s' := by
  obtain ⟨hsort, hfresh, hdense, hkeys, hlive⟩ := hInv
  cases hkf : keysFind s.recs k with
  | none =>
    rw [remove_absent hlive hkf] at h
    injection h with h
    subst h
    exact ⟨hsort, hfresh, hdense, hkeys, hlive⟩
  | some pe =>
    obtain ⟨pk, e⟩ := pe
    obtain ⟨l₁, l₂, hrec, hek, hl₁, hb1, hb2, hstep⟩ := remove_present hsort hlive hkf
    rw [hstep] at h
    injection h with h
    subst h
    have hsub : (l₁ ++ l₂).Sublist (l₁ ++ (pk, e) :: l₂) :=
      (List.sublist_cons_self (pk, e) l₂).append_left l₁
    have hpks : pksOf (l₁ ++ l₂.map (fun r =>
        (r.1, { r.2 with index := r.2.index - 1 }))) = pksOf (l₁ ++ l₂) := by
      simp [pksOf]
    have hks : keysOf (l₁ ++ l₂.map (fun r =>
        (r.1, { r.2 with index := r.2.index - 1 }))) = keysOf (l₁ ++ l₂) := by
      simp [keysOf]
    obtain ⟨hd₁, hde, hd₂⟩ := dense_split (hrec ▸ hdense)
    refine ⟨?_, ?_, ?_, ?_, hlive⟩
    · show (pksOf (l₁ ++ l₂.map _)).Pairwise (· < ·)
      rw [hpks]
      exact (hrec ▸ hsort).sublist (hsub.map (fun (r : Nat × Entry) => r.1))
    · intro x hx
      show x < s.nextPk
      rw [show ({ s with recs := l₁ ++ l₂.map (fun r =>
          (r.1, { r.2 with index := r.2.index - 1 })) } : Store).recs
          = l₁ ++ l₂.map (fun r => (r.1, { r.2 with index := r.2.index - 1 }))
          from rfl, hpks] at hx
      exact hfresh x ((hrec ▸ (hsub.map (fun (r : Nat × Entry) => r.1))).mem hx)
    · show idxs (l₁ ++ l₂.map _) = _
      rw [idxs, List.map_append, List.map_map, List.length_append, List.length_map]
      have hl₂ : l₂.map ((fun r => r.2.index) ∘ (fun r =>
          ((r.1 : Nat), { r.2 with index := r.2.index - 1 }))) =
          (List.range l₂.length).map (fun (t : Nat) => (l₁.length : Int) + t) := by
        have : l₂.map ((fun r => r.2.index) ∘ (fun r =>
            ((r.1 : Nat), { r.2 with index := r.2.index - 1 }))) =
            (idxs l₂).map (fun x => x - 1) := by
          rw [idxs, List.map_map]
          rfl
        rw [this, hd₂, List.map_map]
        refine List.map_congr_left (fun t _ => ?_)
        simp only [Function.comp_apply]
        omega
      rw [idxs] at hd₁
      rw [hl₂, List.range_add, List.map_append, List.map_map, hd₁]
      exact congrArg (List.map (Nat.cast : Nat → Int) (List.range l₁.length) ++ ·)
        (List.map_congr_left (fun t _ => by
          simp only [Function.comp_apply]
          omega))
    · show (keysOf (l₁ ++ l₂.map _)).Pairwise _
      rw [hks]
      exact (hrec ▸ hkeys).sublist (hsub.map (fun (r : Nat × Entry) => r.2.key))

theorem inv_empty : Inv emptyStore := by
  refine ⟨?_, ?_, ?_, ?_, rfl⟩ <;> simp [pksOf, keysOf, idxs, emptyStore]

theorem inv_step {s : Store} (hInv : Inv s) (op : Op) : Inv (step s op) := by
  cases op with
  | set k v =>
    cases h : setItemAsync true s k v with
    | ok s' => simpa [step, h] using inv_set hInv h
    | error e => simpa [step, h] using hInv
  | rem k =>
    cases h : removeItemAsync true s k with
    | ok s' => simpa [step, h] using inv_remove hInv h
    | error e => simpa [step, h] using hInv

theorem inv_foldl (ops : List Op) {s : Store} (hInv : Inv s) :
    Inv (ops.foldl step s) := by
  induction ops generalizing s with
  | nil => exact hInv
  | cons op rest ih => exact ih (inv_step hInv op)

theorem inv_applyOps (ops : List Op) : Inv (applyOps ops) :=
  inv_foldl ops inv_empty

theorem get_after_set {s : Store} {k : String} {v : Tree} {s' : Store}
    (hInv : Inv s) (h : setItemAsync true s k v = Except.ok s') :
    getItemAsync true s' k = Except.ok v := by
  obtain ⟨hsort, hfresh, hdense, hkeys, hlive⟩ := hInv
  cases hkf : keysFind s.recs k with
  | none =>
    rw [setItem_append hlive hkf] at h
    injection h with h
    subst h
    have hne : ∀ r ∈ s.recs, r.1 ≠ s.nextPk := fun r hr =>
      Nat.ne_of_lt (hfresh r.1 (List.mem_map_of_mem _ hr))
    have hfindnew : keysFind (s.recs ++
        [(s.nextPk, { index := maxOrdinal s.recs + 1, key := k, value := v })]) k =
        some (s.nextPk, { index := maxOrdinal s.recs + 1, key := k, value := v }) :=
      keysFind_append_cons (keysFind_eq_none.mp hkf) rfl
    have hget : storeGet (s.recs ++
        [(s.nextPk, { index := maxOrdinal s.recs + 1, key := k, value := v })])
        s.nextPk = some { index := maxOrdinal s.recs + 1, key := k, value := v } :=
      storeGet_append_cons hne
    simp [getItemAsync, checkStorage, hlive, indexKeysGetKey, hfindnew, hget]
  | some pe =>
    obtain ⟨pk, e⟩ := pe
    obtain ⟨l₁, l₂, hrec, hek, hl₁, hb1, hb2, hstep⟩ :=
      setItem_update (v := v) hsort hlive hkf
    rw [hstep] at h
    injection h with h
    subst h
    have hfindnew : keysFind (l₁ ++ (pk, { e with value := v }) :: l₂) k =
        some (pk, { e with value := v }) :=
      keysFind_append_cons hl₁ hek
    have hget : storeGet (l₁ ++ (pk, { e with value := v }) :: l₂) pk =
        some { e with value := v } :=
      storeGet_append_cons (fun r hr => Nat.ne_of_lt (hb1 r hr))
    simp [getItemAsync, checkStorage, hlive, indexKeysGetKey, hfindnew, hget]

/-- C1: Gapless ordinal invariant: after every sequence of serialized
set/remove operations starting from an empty live store, the ordinals
read off in storage order are exactly 0, 1, ..., size-1, an ordinal is
present iff it lies in that interval (no gaps, no duplicates), and both
the primary keys (insertion order) and the ordinals strictly increase
along the store, so ordinal order matches the relative insertion order
of the surviving entries. -/
theorem c1_gapless_ordinal_invariant (ops : List Op) :
    idxs (applyOps ops).recs =
      (List.range (applyOps ops).recs.length).map (Nat.cast : Nat → Int) ∧
    (∀ i : Int, (∃ r ∈ (applyOps ops).recs, r.2.index = i) ↔
      0 ≤ i ∧ i < ((applyOps ops).recs.length : Int)) ∧
    (pksOf (applyOps ops).recs).Pairwise (· < ·) ∧
    (idxs (applyOps ops).recs).Pairwise (· < ·) := by
  obtain ⟨hsort, hfresh, hdense, hkeys, hlive⟩ := inv_applyOps ops
  refine ⟨hdense, ?_, hsort, ?_⟩
  · intro i
    constructor
    · rintro ⟨r, hr, hri⟩
      have hmem : r.2.index ∈ idxs (applyOps ops).recs :=
        List.mem_map_of_mem _ hr
      rw [hdense, List.mem_map] at hmem
      obtain ⟨t, ht, hti⟩ := hmem
      rw [List.mem_range] at ht
      omega
    · rintro ⟨h0, hlt⟩
      have hmem : i ∈ idxs (applyOps ops).recs := by
        rw [hdense, List.mem_map]
        exact ⟨i.toNat, List.mem_range.mpr (by omega), by omega⟩
      rw [idxs, List.mem_map] at hmem
      obtain ⟨r, hr, hri⟩ := hmem
      exact ⟨r, hr, hri⟩
  · rw [hdense]
    exact List.pairwise_map.mpr ((List.pairwise_lt_range _).imp
      (fun hab => by exact_mod_cast hab))

/-- C2: Remove semantics: removing an absent key is a no-op that leaves
the store unchanged; removing a present key deletes exactly that record
and decrements by one the ordinal of every record whose ordinal was
strictly greater, leaving the relative order of the remaining entries
unchanged; the compacted suffix - the records the cursor visits, in
its ascending visiting order - consists exactly of the records whose
ordinals were e.index + 1, e.index + 2, ..., ascending, i.e. compaction
proceeds in ascending ordinal order starting just above the removed
slot. -/
theorem c2_remove_semantics (s : Store) (k : String) (hInv : Inv s) :
    (keysFind s.recs k = none → removeItemAsync true s k = Except.ok s) ∧
    (∀ pk e, keysFind s.recs k = some (pk, e) →
      ∃ s' l₁ l₂,
        removeItemAsync true s k = Except.ok s' ∧
        s.recs = l₁ ++ (pk, e) :: l₂ ∧
        s'.recs = l₁ ++
          l₂.map (fun r => (r.1, { r.2 with index := r.2.index - 1 })) ∧
        s'.recs.length + 1 = s.recs.length ∧
        (∀ r ∈ s'.recs, r.2.key ≠ k) ∧
        (∀ r ∈ l₁, r.2.index < e.index) ∧
        (∀ r ∈ l₂, e.index < r.2.index) ∧
        idxs l₂ = (List.range l₂.length).map
          (fun (t : Nat) => e.index + 1 + (t : Int))) := by
  obtain ⟨hsort, hfresh, hdense, hkeys, hlive⟩ := hInv
  constructor
  · intro habs
    exact remove_absent hlive habs
  · intro pk e hfind
    obtain ⟨l₁, l₂, hrec, hek, hl₁, hb1, hb2, hstep⟩ :=
      remove_present hsort hlive hfind
    obtain ⟨hd₁, hde, hd₂⟩ := dense_split (hrec ▸ hdense)
    have hkl₂ : ∀ r ∈ l₂, r.2.key ≠ k := by
      have hk' := hrec ▸ hkeys
      rw [keysOf, List.map_append, List.pairwise_append] at hk'
      have := hk'.2.1
      rw [List.map_cons, List.pairwise_cons] at this
      intro r hr
      exact fun hc => this.1 r.2.key (List.mem_map_of_mem _ hr) (hek.symm ▸ hc.symm ▸ rfl)
    refine ⟨_, l₁, l₂, hstep, hrec, rfl, ?_, ?_, ?_, ?_, ?_⟩
    · rw [hrec]
      simp
      omega
    · intro r hr
      rw [List.mem_append] at hr
      rcases hr with hr | hr
      · exact hl₁ r hr
      · rw [List.mem_map] at hr
        obtain ⟨a, ha, rfl⟩ := hr
        exact hkl₂ a ha
    · intro r hr
      have hmem : r.2.index ∈ idxs l₁ := List.mem_map_of_mem _ hr
      rw [hd₁, List.mem_map] at hmem
      obtain ⟨t, ht, hti⟩ := hmem
      rw [List.mem_range] at ht
      rw [hde]
      omega
    · intro r hr
      have hmem : r.2.index ∈ idxs l₂ := List.mem_map_of_mem _ hr
      rw [hd₂, List.mem_map] at hmem
      obtain ⟨t, _, hti⟩ := hmem
      rw [hde]
      omega
    · rw [hd₂]
      exact List.map_congr_left (fun t _ => by rw [hde])

/-- C3: Append semantics: setting a fresh key appends exactly one record
carrying that key and value with ordinal currentMaxOrdinal + 1, where
currentMaxOrdinal is the first ordinal seen by the descending scan of
the ordinal index (the greatest ordinal present), or -1 when the store
is empty, so the first insert into an empty store gets ordinal 0. -/
theorem c3_append_semantics (s : Store) (k : String) (v : Tree)
    (hlive : s.isDeleted = false) (habs : keysFind s.recs k = none) :
    ∃ s', setItemAsync true s k v = Except.ok s' ∧
      s'.recs = s.recs ++
        [(s.nextPk, { index := maxOrdinal s.recs + 1, key := k, value := v })] ∧
      s'.recs.length = s.recs.length + 1 ∧
      (∀ m : Int, (idxs s.recs).maximum = (m : WithBot Int) →
        maxOrdinal s.recs = m) ∧
      ((idxs s.recs).maximum = ⊥ → maxOrdinal s.recs = -1) ∧
      (s.recs = [] →
        s'.recs = [(s.nextPk, { index := 0, key := k, value := v })]) := by
  refine ⟨_, setItem_append hlive habs, rfl, by simp, ?_, ?_, ?_⟩
  · intro m hm
    rw [maxOrdinal, hm, WithBot.unbot'_coe]
  · intro hm
    rw [maxOrdinal, hm]
    rfl
  · intro hnil
    rw [hnil]
    simp [maxOrdinal, idxs]

/-- C5: Compaction-and-reuse scenario: inserting the keys value, value2,
value3, value4 into an empty store assigns ordinals 0-3; removing value
and value3 leaves value2 and value4 at ordinals 0 and 1; inserting
value5, value and value6 afterwards yields the final ordinal order
value2(0), value4(1), value5(2), value(3), value6(4). -/
theorem c5_compaction_reuse_scenario :
    (applyOps [Op.set "value" (Tree.vInt 10), Op.set "value2" (Tree.vInt 20),
      Op.set "value3" (Tree.vInt 30), Op.set "value4" (Tree.vInt 40)]).recs.map
      (fun r => (r.2.key, r.2.index)) =
      [("value", 0), ("value2", 1), ("value3", 2), ("value4", 3)] ∧
    (applyOps [Op.set "value" (Tree.vInt 10), Op.set "value2" (Tree.vInt 20),
      Op.set "value3" (Tree.vInt 30), Op.set "value4" (Tree.vInt 40),
      Op.rem "value", Op.rem "value3"]).recs.map
      (fun r => (r.2.key, r.2.index)) =
      [("value2", 0), ("value4", 1)] ∧
    (applyOps [Op.set "value" (Tree.vInt 10), Op.set "value2" (Tree.vInt 20),
      Op.set "value3" (Tree.vInt 30), Op.set "value4" (Tree.vInt 40),
      Op.rem "value", Op.rem "value3", Op.set "value5" (Tree.vInt 50),
      Op.set "value" (Tree.vInt 1), Op.set "value6" (Tree.vInt 60)]).recs.map
      (fun r => (r.2.key, r.2.index)) =
      [("value2", 0), ("value4", 1), ("value5", 2), ("value", 3),
        ("value6", 4)] := by
  refine ⟨by decide, by decide, by decide⟩

/-- C8: Update preserves the ordinal and frames the rest: setting a key
that already has a record replaces that record's value in place, keeps
its primary key and ordinal, leaves every other record untouched (same
primary keys, ordinals and keys throughout, and every record not at the
updated primary key survives literally), and leaves size() unchanged. -/
theorem c8_update_preserves_ordinal (s : Store) (k : String) (v : Tree)
    (pk : Nat) (e : Entry) (hInv : Inv s)
    (hfind : keysFind s.recs k = some (pk, e)) :
    ∃ s', setItemAsync true s k v = Except.ok s' ∧
      s'.nextPk = s.nextPk ∧
      s'.recs.length = s.recs.length ∧
      (pk, { e with value := v }) ∈ s'.recs ∧
      pksOf s'.recs = pksOf s.recs ∧
      idxs s'.recs = idxs s.recs ∧
      keysOf s'.recs = keysOf s.recs ∧
      (∀ r ∈ s.recs, r.1 ≠ pk → r ∈ s'.recs) ∧
      sizeAsync true s' = sizeAsync true s := by
  obtain ⟨hsort, hfresh, hdense, hkeys, hlive⟩ := hInv
  obtain ⟨l₁, l₂, hrec, hek, hl₁, hb1, hb2, hstep⟩ :=
    setItem_update (v := v) hsort hlive hfind
  have hlen : (l₁ ++ (pk, { e with value := v }) :: l₂).length = s.recs.length := by
    rw [hrec]
    simp
  refine ⟨_, hstep, rfl, hlen, by simp, ?_, ?_, ?_, ?_, ?_⟩
  · rw [hrec]
    simp [pksOf]
  · rw [hrec]
    simp [idxs]
  · rw [hrec]
    simp [keysOf]
  · intro r hr hrpk
    rw [hrec] at hr
    rw [List.mem_append] at hr ⊢
    rcases hr with hr | hr
    · exact Or.inl hr
    · rw [List.mem_cons] at hr ⊢
      rcases hr with hr | hr
      · exact absurd (congrArg Prod.fst hr) hrpk
      · exact Or.inr (Or.inr hr)
  · simp [sizeAsync, checkStorage, hlive, hlen]

/-- C7: Unset versus null: get returns the unset sentinel (undefined)
both for a key that was never set and for a key explicitly set to the
sentinel; a stored null is returned as null, not as unset; and the
default overlay substitutes its value only for an unset result, never
for an explicitly stored null. -/
theorem c7_unset_versus_null (s : Store) (k : String) (hInv : Inv s) :
    (keysFind s.recs k = none → ∀ d : Overlay,
      getItemAsync true s k = Except.ok Tree.vUndef ∧
      getWithDefault d true s k = Except.ok ((d.lookup k).getD Tree.vUndef)) ∧
    (∀ s', setItemAsync true s k Tree.vUndef = Except.ok s' →
      getItemAsync true s' k = Except.ok Tree.vUndef) ∧
    (∀ s', setItemAsync true s k Tree.vNull = Except.ok s' →
      getItemAsync true s' k = Except.ok Tree.vNull ∧
      Tree.vNull ≠ Tree.vUndef ∧
      ∀ d : Overlay, getWithDefault d true s' k = Except.ok Tree.vNull) := by
  obtain ⟨hsort, hfresh, hdense, hkeys, hlive⟩ := id hInv
  refine ⟨?_, ?_, ?_⟩
  · intro habs d
    have hg : getItemAsync true s k = Except.ok Tree.vUndef := by
      simp [getItemAsync, checkStorage, hlive, indexKeysGetKey, habs]
    exact ⟨hg, by simp [getWithDefault, hg]⟩
  · intro s' hset
    exact get_after_set hInv hset
  · intro s' hset
    have hg := get_after_set hInv hset
    refine ⟨hg, fun hc => Tree.noConfusion hc, fun d => ?_⟩
    simp [getWithDefault, hg]

/-- C6: Deleted-lifecycle rejection: once deleteStore() has completed
successfully, every subsequent get, set, remove, clear, size, keyAt or
entries call fails with the fixed storage-deleted message, for every
engine behaviour (so the guard fires first and no engine interaction is
attempted). -/
theorem c6_deleted_lifecycle_rejection (s0 : Store)
    (hlive : s0.isDeleted = false) :
    (deleteStorageAsync true s0).1 = Except.ok () ∧
    ((deleteStorageAsync true s0).2).isDeleted = true ∧
    ∀ eng k v i,
      getItemAsync eng (deleteStorageAsync true s0).2 k =
        Except.error deletedMsg ∧
      setItemAsync eng (deleteStorageAsync true s0).2 k v =
        Except.error deletedMsg ∧
      removeItemAsync eng (deleteStorageAsync true s0).2 k =
        Except.error deletedMsg ∧
      clearAsync eng (deleteStorageAsync true s0).2 = Except.error deletedMsg ∧
      sizeAsync eng (deleteStorageAsync true s0).2 = Except.error deletedMsg ∧
      keyAsync eng (deleteStorageAsync true s0).2 i = Except.error deletedMsg ∧
      entriesAsync eng (deleteStorageAsync true s0).2 =
        Except.error deletedMsg := by
  have hdel : (deleteStorageAsync true s0).2 = { s0 with isDeleted := true } := by
    simp [deleteStorageAsync, checkStorage, hlive]
  refine ⟨by simp [deleteStorageAsync, checkStorage, hlive], by rw [hdel], ?_⟩
  intro eng k v i
  rw [hdel]
  refine ⟨?_, ?_, ?_, ?_, ?_, ?_, ?_⟩ <;>
    simp [getItemAsync, setItemAsync, removeItemAsync, clearAsync, sizeAsync,
      keyAsync, entriesAsync, checkStorage]

/-- C9: A second deleteStore() is rejected by the guard: deleteStore()
consults the lifecycle flag as its first action, so after one successful
deleteStore() a second call fails with the fixed storage-deleted message
and leaves the state unchanged, whatever the engine would do. -/
theorem c9_second_delete_rejected (s : Store) (h : s.isDeleted = false) :
    (deleteStorageAsync true s).1 = Except.ok () ∧
    ((deleteStorageAsync true s).2).isDeleted = true ∧
    ∀ eng, deleteStorageAsync eng (deleteStorageAsync true s).2 =
      (Except.error deletedMsg, (deleteStorageAsync true s).2) := by
  have hdel : (deleteStorageAsync true s).2 = { s with isDeleted := true } := by
    simp [deleteStorageAsync, checkStorage, h]
  refine ⟨by simp [deleteStorageAsync, checkStorage, h], by rw [hdel], ?_⟩
  intro eng
  rw [hdel]
  simp [deleteStorageAsync, checkStorage]

/-- C10: Lifecycle flag atomicity on failed deletion: when the engine's
database-deletion step fails, deleteStore() rejects with the engine's
error, the lifecycle flag stays false (it becomes true exactly when the
destructive step succeeds), and subsequent data operations are not
rejected by the lifecycle guard. -/
theorem c10_failed_delete_keeps_store_active (s : Store)
    (h : s.isDeleted = false) :
    deleteStorageAsync false s = (Except.error engineErr, s) ∧
    ((deleteStorageAsync false s).2).isDeleted = false ∧
    (∀ eng, ((deleteStorageAsync eng s).2).isDeleted = true ↔ eng = true) ∧
    (∀ k, getItemAsync true (deleteStorageAsync false s).2 k ≠
      Except.error deletedMsg) ∧
    (∀ k v, setItemAsync true (deleteStorageAsync false s).2 k v ≠
      Except.error deletedMsg) := by
  have h2 : (deleteStorageAsync false s).2 = s := by
    simp [deleteStorageAsync, checkStorage, h]
  refine ⟨by simp [deleteStorageAsync, checkStorage, h], by rw [h2]; exact h,
    ?_, ?_, ?_⟩
  · intro eng
    cases eng <;> simp [deleteStorageAsync, checkStorage, h]
  · intro k
    rw [h2]
    simp only [getItemAsync, checkStorage, h]
    cases hkf : indexKeysGetKey s.recs k with
    | none => simp [deletedMsg]
    | some pk =>
      cases hg : storeGet s.recs pk with
      | none => simp [hg, deletedMsg]
      | some e => simp [hg, deletedMsg]
  · intro k v
    rw [h2]
    simp only [setItemAsync, checkStorage, h]
    cases hkf : indexKeysGetKey s.recs k with
    | none => simp [deletedMsg]
    | some pk =>
      cases hg : storeGet s.recs pk with
      | none => simp [hg, deletedMsg]
      | some e => simp [hg, deletedMsg]

theorem setItem_ok {s : Store} (k : String) (v : Tree) (hInv : Inv s) :
    ∃ s', setItemAsync true s k v = Except.ok s' := by
  obtain ⟨hsort, hfresh, hdense, hkeys, hlive⟩ := id hInv
  cases hkf : keysFind s.recs k with
  | none => exact ⟨_, setItem_append hlive hkf⟩
  | some pe =>
    obtain ⟨pk, e⟩ := pe
    obtain ⟨l₁, l₂, hrec, hek, hl₁, hb1, hb2, hstep⟩ :=
      setItem_update (v := v) hsort hlive hkf
    exact ⟨_, hstep⟩

/-- C4: Deep-copy round trip: the engine structured-clones the caller's
value at set time (setItemJS), so set followed by get returns exactly
the deep copy t the caller's value denoted when set ran; if the caller
mutates its heap afterwards so that the same value now denotes a
different tree, get still returns the original copy, never the mutated
one (clone-on-write).  Reads return immutable trees and leave the store
untouched, so mutating a value obtained from get cannot change what
later gets return (clone-on-read holds by construction of the value
model). -/
theorem c4_deep_copy_round_trip (s : Store) (k : String) (fuel fuel' : Nat)
    (h h' : Heap) (v : JSVal) (t t' : Tree) (hInv : Inv s)
    (hsnap : snapshotV fuel h v = some t)
    (_hmut : snapshotV fuel' h' v = some t') :
    ∃ s', setItemJS true s k fuel h v = Except.ok s' ∧
      getItemAsync true s' k = Except.ok t ∧
      (t' ≠ t → getItemAsync true s' k ≠ Except.ok t') := by
  obtain ⟨s', hset⟩ := setItem_ok k t hInv
  have hJS : setItemJS true s k fuel h v = Except.ok s' := by
    rw [setItemJS, hsnap]
    exact hset
  have hget := get_after_set hInv hset
  refine ⟨s', hJS, hget, ?_⟩
  intro hne hc
  rw [hget] at hc
  injection hc with hc
  exact hne hc.symm

/-- Witness for C2: removing the key value from the two-record store
built by inserting value and value2. -/
theorem c2_remove_semantics_witness :
    ∃ s' l₁ l₂,
      removeItemAsync true (applyOps [Op.set "value" (Tree.vInt 10),
        Op.set "value2" (Tree.vInt 20)]) "value" = Except.ok s' ∧
      (applyOps [Op.set "value" (Tree.vInt 10),
        Op.set "value2" (Tree.vInt 20)]).recs =
        l₁ ++ (1, { index := 0, key := "value", value := Tree.vInt 10 }) :: l₂ ∧
      s'.recs = l₁ ++
        l₂.map (fun r => (r.1, { r.2 with index := r.2.index - 1 })) ∧
      s'.recs.length + 1 = (applyOps [Op.set "value" (Tree.vInt 10),
        Op.set "value2" (Tree.vInt 20)]).recs.length ∧
      (∀ r ∈ s'.recs, r.2.key ≠ "value") ∧
      (∀ r ∈ l₁, r.2.index < (0 : Int)) ∧
      (∀ r ∈ l₂, (0 : Int) < r.2.index) ∧
      idxs l₂ = (List.range l₂.length).map
        (fun (t : Nat) => (0 : Int) + 1 + (t : Int)) :=
  (c2_remove_semantics _ "value" (inv_applyOps _)).2 1
    { index := 0, key := "value", value := Tree.vInt 10 } rfl

/-- Witness for C3: the first insert into the empty store gets
ordinal 0. -/
theorem c3_append_semantics_witness :
    emptyStore.isDeleted = false ∧
    keysFind emptyStore.recs "a" = none ∧
    ∃ s', setItemAsync true emptyStore "a" (Tree.vInt 7) = Except.ok s' ∧
      s'.recs = emptyStore.recs ++ [(emptyStore.nextPk,
        { index := maxOrdinal emptyStore.recs + 1, key := "a",
          value := Tree.vInt 7 })] ∧
      s'.recs.length = emptyStore.recs.length + 1 ∧
      (∀ m : Int, (idxs emptyStore.recs).maximum = (m : WithBot Int) →
        maxOrdinal emptyStore.recs = m) ∧
      ((idxs emptyStore.recs).maximum = ⊥ → maxOrdinal emptyStore.recs = -1) ∧
      (emptyStore.recs = [] → s'.recs = [(emptyStore.nextPk,
        { index := 0, key := "a", value := Tree.vInt 7 })]) :=
  ⟨rfl, rfl, c3_append_semantics emptyStore "a" (Tree.vInt 7) rfl rfl⟩

/-- Witness for C4, mirroring the ref-problem test: the caller writes
the object a = (c : [40, 42]), then mutates it to (c : [30]); get still
returns the deep copy of (c : [40, 42]). -/
theorem c4_deep_copy_round_trip_witness :
    snapshotV 3 [(0, [("c", JSVal.jRef 1)]),
      (1, [("0", JSVal.jInt 40), ("1", JSVal.jInt 42)])] (JSVal.jRef 0) =
      some (Tree.vObj [("c", Tree.vObj [("0", Tree.vInt 40),
        ("1", Tree.vInt 42)])]) ∧
    snapshotV 3 [(0, [("c", JSVal.jRef 2)]), (2, [("0", JSVal.jInt 30)])]
      (JSVal.jRef 0) =
      some (Tree.vObj [("c", Tree.vObj [("0", Tree.vInt 30)])]) ∧
    ∃ s', setItemJS true emptyStore "value" 3 [(0, [("c", JSVal.jRef 1)]),
        (1, [("0", JSVal.jInt 40), ("1", JSVal.jInt 42)])] (JSVal.jRef 0) =
        Except.ok s' ∧
      getItemAsync true s' "value" = Except.ok (Tree.vObj [("c",
        Tree.vObj [("0", Tree.vInt 40), ("1", Tree.vInt 42)])]) ∧
      (Tree.vObj [("c", Tree.vObj [("0", Tree.vInt 30)])] ≠
          Tree.vObj [("c", Tree.vObj [("0", Tree.vInt 40),
            ("1", Tree.vInt 42)])] →
        getItemAsync true s' "value" ≠
          Except.ok (Tree.vObj [("c", Tree.vObj [("0", Tree.vInt 30)])])) :=
  ⟨rfl, rfl, c4_deep_copy_round_trip emptyStore "value" 3 3
    [(0, [("c", JSVal.jRef 1)]), (1, [("0", JSVal.jInt 40),
      ("1", JSVal.jInt 42)])]
    [(0, [("c", JSVal.jRef 2)]), (2, [("0", JSVal.jInt 30)])]
    (JSVal.jRef 0) _ _ inv_empty rfl rfl⟩

/-- Witness for C6: after deleting the empty store, every operation is
rejected with the storage-deleted message even when the engine would
fail. -/
theorem c6_deleted_lifecycle_rejection_witness :
    emptyStore.isDeleted = false ∧
    (deleteStorageAsync true emptyStore).1 = Except.ok () ∧
    ((deleteStorageAsync true emptyStore).2).isDeleted = true ∧
    getItemAsync false (deleteStorageAsync true emptyStore).2 "x" =
      Except.error deletedMsg ∧
    setItemAsync false (deleteStorageAsync true emptyStore).2 "x" Tree.vNull =
      Except.error deletedMsg ∧
    removeItemAsync false (deleteStorageAsync true emptyStore).2 "x" =
      Except.error deletedMsg ∧
    clearAsync false (deleteStorageAsync true emptyStore).2 =
      Except.error deletedMsg ∧
    sizeAsync false (deleteStorageAsync true emptyStore).2 =
      Except.error deletedMsg ∧
    keyAsync false (deleteStorageAsync true emptyStore).2 0 =
      Except.error deletedMsg ∧
    entriesAsync false (deleteStorageAsync true emptyStore).2 =
      Except.error deletedMsg := by
  have hc := c6_deleted_lifecycle_rejection emptyStore rfl
  have hops := hc.2.2 false "x" Tree.vNull 0
  exact ⟨rfl, hc.1, hc.2.1, hops.1, hops.2.1, hops.2.2.1, hops.2.2.2.1,
    hops.2.2.2.2.1, hops.2.2.2.2.2.1, hops.2.2.2.2.2.2⟩

/-- Witness for C7, mirroring the addDefault test: with default value 1
for key value, an unset read is overlaid with 1, a stored undefined
reads back as unset, and a stored null reads back as null with no
overlay substitution. -/
theorem c7_unset_versus_null_witness :
    getItemAsync true emptyStore "value" = Except.ok Tree.vUndef ∧
    getWithDefault [("value", Tree.vInt 1)] true emptyStore "value" =
      Except.ok (Tree.vInt 1) ∧
    getItemAsync true
      (Store.mk [(1, Entry.mk 0 "value" Tree.vUndef)] 2 false) "value" =
      Except.ok Tree.vUndef ∧
    getItemAsync true
      (Store.mk [(1, Entry.mk 0 "value" Tree.vNull)] 2 false) "value" =
      Except.ok Tree.vNull ∧
    getWithDefault [("value", Tree.vInt 1)] true
      (Store.mk [(1, Entry.mk 0 "value" Tree.vNull)] 2 false) "value" =
      Except.ok Tree.vNull := by
  have hc := c7_unset_versus_null emptyStore "value" inv_empty
  refine ⟨(hc.1 rfl [("value", Tree.vInt 1)]).1,
    (hc.1 rfl [("value", Tree.vInt 1)]).2, ?_, ?_, ?_⟩
  · exact hc.2.1 _ rfl
  · exact (hc.2.2 _ rfl).1
  · exact (hc.2.2 _ rfl).2.2 [("value", Tree.vInt 1)]

/-- Witness for C8: updating value from 10 to 42 keeps its ordinal 0 and
primary key 1 and leaves size unchanged. -/
theorem c8_update_preserves_ordinal_witness :
    ∃ s', setItemAsync true (applyOps [Op.set "value" (Tree.vInt 10)])
        "value" (Tree.vInt 42) = Except.ok s' ∧
      s'.nextPk = (applyOps [Op.set "value" (Tree.vInt 10)]).nextPk ∧
      s'.recs.length = (applyOps [Op.set "value" (Tree.vInt 10)]).recs.length ∧
      (1, { index := 0, key := "value", value := Tree.vInt 42 }) ∈ s'.recs ∧
      pksOf s'.recs = pksOf (applyOps [Op.set "value" (Tree.vInt 10)]).recs ∧
      idxs s'.recs = idxs (applyOps [Op.set "value" (Tree.vInt 10)]).recs ∧
      keysOf s'.recs = keysOf (applyOps [Op.set "value" (Tree.vInt 10)]).recs ∧
      (∀ r ∈ (applyOps [Op.set "value" (Tree.vInt 10)]).recs, r.1 ≠ 1 →
        r ∈ s'.recs) ∧
      sizeAsync true s' = sizeAsync true (applyOps [Op.set "value"
        (Tree.vInt 10)]) :=
  c8_update_preserves_ordinal _ "value" (Tree.vInt 42) 1
    { index := 0, key := "value", value := Tree.vInt 10 } (inv_applyOps _) rfl

/-- Witness for C9: deleting the empty store once succeeds; the second
call is rejected by the guard for any engine behaviour. -/
theorem c9_second_delete_rejected_witness :
    emptyStore.isDeleted = false ∧
    (deleteStorageAsync true emptyStore).1 = Except.ok () ∧
    ((deleteStorageAsync true emptyStore).2).isDeleted = true ∧
    deleteStorageAsync true (deleteStorageAsync true emptyStore).2 =
      (Except.error deletedMsg, (deleteStorageAsync true emptyStore).2) ∧
    deleteStorageAsync false (deleteStorageAsync true emptyStore).2 =
      (Except.error deletedMsg, (deleteStorageAsync true emptyStore).2) := by
  have hc := c9_second_delete_rejected emptyStore rfl
  exact ⟨rfl, hc.1, hc.2.1, hc.2.2 true, hc.2.2 false⟩

/-- Witness for C10: a failed engine deletion of the empty store leaves
the flag false and the guard inert. -/
theorem c10_failed_delete_keeps_store_active_witness :
    emptyStore.isDeleted = false ∧
    deleteStorageAsync false emptyStore = (Except.error engineErr, emptyStore) ∧
    ((deleteStorageAsync false emptyStore).2).isDeleted = false ∧
    (((deleteStorageAsync false emptyStore).2).isDeleted = true ↔
      false = true) ∧
    (((deleteStorageAsync true emptyStore).2).isDeleted = true ↔
      true = true) ∧
    getItemAsync true (deleteStorageAsync false emptyStore).2 "x" ≠
      Except.error deletedMsg ∧
    setItemAsync true (deleteStorageAsync false emptyStore).2 "x" Tree.vNull ≠
      Except.error deletedMsg := by
  have hc := c10_failed_delete_keeps_store_active emptyStore rfl
  exact ⟨rfl, hc.1, hc.2.1, hc.2.2.1 false, hc.2.2.1 true,
    hc.2.2.2.1 "x", hc.2.2.2.2 "x" Tree.vNull⟩

end IndexedDBStore
